import Mathlib

/-!
Verification of the tick-replay trading engine in `src/app/page.tsx`.

The engine's numeric values are embedded exactly: JS `number` prices,
sizes and balances become `ℚ`; BigInt nanosecond timestamps and the
BigInt virtual clock become `ℤ`; JS array indices and lengths become
`ℕ`/`ℤ`.  Fallible UI interactions are modelled as pure state
transitions returning the untouched state plus a notification flag.
-/

namespace GhostTrader

/-! ## Data model (page.tsx lines 26-51, 122-131) -/

/-- A tick row as delivered by the API: `{ ts: string; price: number;
volume: number; m: number }` (page.tsx line 27).  `ts` is the BigInt
nanosecond timestamp, `m` the minute of day. -/
structure Tick where
  ts : ℤ
  price : ℚ
  volume : ℕ
  m : ℤ
deriving DecidableEq

/-- A chart candle `{ time, open, high, low, close }` as built in
`processInstrumentTick` (page.tsx lines 427-434).  The source's `open`
field is spelled `opn` because `open` is a Lean keyword. -/
structure Candle where
  time : ℤ
  opn : ℚ
  high : ℚ
  low : ℚ
  close : ℚ
deriving DecidableEq

/-- Order side, `"LONG" | "SHORT"` (page.tsx line 32). -/
inductive Side where
  | LONG
  | SHORT
deriving DecidableEq

/-- An open position (page.tsx lines 30-38).  `sl`/`tp` are optional
stop prices; `pnl` is the last computed unrealized PnL. -/
structure Position where
  symbol : String
  side : Side
  avgPrice : ℚ
  size : ℚ
  sl : Option ℚ
  tp : Option ℚ
  pnl : ℚ
deriving DecidableEq

/-- The two replayed instruments (page.tsx line 48). -/
inductive Instr where
  | es
  | nq
deriving DecidableEq

/-- Uppercase symbol key used for the positions record,
`instrument.toUpperCase()` (page.tsx line 518). -/
def instrKey : Instr → String
  | .es => "ES"
  | .nq => "NQ"

/-! ## Candle aggregation (page.tsx lines 409-441, 333-372) -/

/-- The minute bucket of a nanosecond timestamp:
`Number(tickTs / 1000000000n)` (BigInt division truncates toward zero)
followed by `Math.floor(timestamp / 60) * 60` (page.tsx lines 423-424). -/
def bucket (ts : ℤ) : ℤ :=
  ((ts.tdiv 1000000000).fdiv 60) * 60

/-- Per-instrument aggregator state: the `currentPrice` and open
`candle` fields of `engineRef.current[key]` (page.tsx lines 124-125),
plus the list of candles superseded so far (each candle value pushed to
the chart when its bucket is left behind). -/
structure AggState where
  currentPrice : ℚ
  candle : Option Candle
  closed : List Candle
deriving DecidableEq

/-- Aggregator state at engine initialization: `currentPrice: 0`,
`candle: null` (page.tsx lines 124-125). -/
def initAgg : AggState :=
  { currentPrice := 0, candle := none, closed := [] }

/-- Fold one tick into the aggregator, exactly the body of the while
loop in `processInstrumentTick` (page.tsx lines 422-435): set
`currentPrice`; open a candle if none; on a different minute bucket
replace the open candle with a fresh one (the old candle is superseded
and recorded in `closed`); on the same bucket update high/low/close. -/
def foldTick (s : AggState) (tk : Tick) : AggState :=
  let minuteTime := bucket tk.ts
  let price := tk.price
  match s.candle with
  | none =>
      { s with currentPrice := price,
               candle := some ⟨minuteTime, price, price, price, price⟩ }
  | some c =>
      if c.time ≠ minuteTime then
        { currentPrice := price,
          candle := some ⟨minuteTime, price, price, price, price⟩,
          closed := s.closed ++ [c] }
      else
        { s with currentPrice := price,
                 candle := some { c with high := max c.high price,
                                         low := min c.low price,
                                         close := price } }

/-- Fold a list of ticks in order. -/
def foldAll (s : AggState) (l : List Tick) : AggState :=
  l.foldl foldTick s

/-- All candles an aggregator state accounts for: the superseded ones
followed by the open one. -/
def candles (s : AggState) : List Candle :=
  s.closed ++ s.candle.toList

/-- The open-time buckets of all candles, in production order. -/
def candleTimes (s : AggState) : List ℤ :=
  (candles s).map Candle.time

/-- The OHLC sanity property claimed for every candle:
`low ≤ min(open, close)` and `high ≥ max(open, close)`. -/
def candleOk (c : Candle) : Prop :=
  c.low ≤ c.opn ∧ c.low ≤ c.close ∧ c.opn ≤ c.high ∧ c.close ≤ c.high

/-! ## Stream consumption and the frame loop (page.tsx lines 409-441, 486-502) -/

/-- One instrument's replay state.  `pending` is the suffix
`buffer.slice(lastLoadedIndex + 1)` of the source's append-only buffer:
the loop in `processInstrumentTick` only ever reads the buffer from
`lastLoadedIndex + 1` on, and only advances that index. -/
structure StreamSt where
  pending : List Tick
  agg : AggState
deriving DecidableEq

/-- Consume every pending tick with `ts ≤ t`, folding each one, and
stop at the first tick with `ts > t` (the `break` at page.tsx line 420).
Returns the aggregator state and the remaining pending ticks. -/
def consumeUpTo (t : ℤ) : List Tick → AggState → AggState × List Tick
  | [], s => (s, [])
  | tk :: rest, s =>
      if tk.ts ≤ t then consumeUpTo t rest (foldTick s tk)
      else (s, tk :: rest)

/-- `processInstrumentTick` (page.tsx lines 409-441) as a state
transition on one instrument's stream. -/
def processInstrumentTick (t : ℤ) (st : StreamSt) : StreamSt :=
  let r := consumeUpTo t st.pending st.agg
  { pending := r.2, agg := r.1 }

/-- The whole replay state touched by one animation frame: the BigInt
virtual clock `globalTimeBig` and both instrument streams. -/
structure EngineState where
  globalTimeBig : ℤ
  es : StreamSt
  nq : StreamSt
deriving DecidableEq

/-- The per-frame clock increment
`BigInt(Math.floor(deltaMs * 1_000_000 * playbackSpeed))`
(page.tsx line 492). -/
def advanceNs (deltaMs speed : ℚ) : ℤ :=
  ⌊deltaMs * 1000000 * speed⌋

/-- One animation frame of `loop` (page.tsx lines 486-502) restricted
to the clock and candle state: advance the virtual clock, then consume
both streams up to the new clock value. -/
def frame (deltaMs speed : ℚ) (e : EngineState) : EngineState :=
  let t := e.globalTimeBig + advanceNs deltaMs speed
  { globalTimeBig := t,
    es := processInstrumentTick t e.es,
    nq := processInstrumentTick t e.nq }

/-- An engine state with both buffers empty, as right after
initialization. -/
def engine0 : EngineState :=
  { globalTimeBig := 0,
    es := { pending := [], agg := initAgg },
    nq := { pending := [], agg := initAgg } }

/-! ## Seek ("time travel"): loadData / processSync (page.tsx lines 333-372) -/

/-- Result of scanning one instrument in `processSync`. -/
structure SyncResult where
  agg : AggState
  remaining : List Tick
  caughtUp : Bool
  clock : ℤ
deriving DecidableEq

/-- `processSync(key)` (page.tsx lines 335-367): fold pending ticks
until the first tick with `tick.m >= targetMin`; at that tick, if the
shared `caughtUp` flag is still false, set the virtual clock to the
tick's timestamp and raise the flag, then stop. -/
def processSyncOne (target : ℤ) : List Tick → AggState → Bool → ℤ → SyncResult
  | [], s, cu, ck => ⟨s, [], cu, ck⟩
  | tk :: rest, s, cu, ck =>
      if target ≤ tk.m then
        ⟨s, tk :: rest, true, if cu then ck else tk.ts⟩
      else
        processSyncOne target rest (foldTick s tk) cu ck

/-- Result of the whole seek. -/
structure SeekResult where
  es : StreamSt
  nq : StreamSt
  clock : ℤ
deriving DecidableEq

/-- The seek body of `loadData` for a target minute past market open
(page.tsx lines 333-372): `processSync("es")` then `processSync("nq")`,
sharing one `caughtUp` flag and the clock, starting from the freshly
loaded buffers and the session-start clock `startNs`. -/
def seekSync (target startClock : ℤ) (esP nqP : List Tick)
    (esA nqA : AggState) : SeekResult :=
  let r1 := processSyncOne target esP esA false startClock
  let r2 := processSyncOne target nqP nqA r1.caughtUp r1.clock
  { es := { pending := r1.remaining, agg := r1.agg },
    nq := { pending := r2.remaining, agg := r2.agg },
    clock := r2.clock }

/-- The predicate "tick lies at or after the target minute",
`tick.m >= targetMin` (page.tsx line 343). -/
def atOrAfter (target : ℤ) (tk : Tick) : Bool :=
  decide (target ≤ tk.m)

/-- The predicate "tick lies before the target minute". -/
def beforeTarget (target : ℤ) (tk : Tick) : Bool :=
  decide (tk.m < target)

/-! ## Order fills: handleOrder (page.tsx lines 514-554) -/

/-- `price - avg` for a long, `avg - price` for a short: the ternary
`existing.side === "LONG" ? (currentPrice - existing.avgPrice) :
(existing.avgPrice - currentPrice)` (page.tsx line 534). -/
def directionalDiff (side : Side) (avg price : ℚ) : ℚ :=
  match side with
  | .LONG => price - avg
  | .SHORT => avg - price

/-- The position-update core of `handleOrder` (page.tsx lines 519-553),
returning the new position entry for the instrument and the amount
realized into the account balance. -/
def applyFill (symKey : String) (existing : Option Position) (side : Side)
    (currentPrice orderSize multi : ℚ) : Option Position × ℚ :=
  match existing with
  | none =>
      (some { symbol := symKey, side := side, avgPrice := currentPrice,
              size := orderSize, sl := none, tp := none, pnl := 0 }, 0)
  | some ex =>
      if ex.side = side then
        let totalCost := ex.avgPrice * ex.size + currentPrice * orderSize
        let totalSize := ex.size + orderSize
        (some { ex with avgPrice := totalCost / totalSize, size := totalSize }, 0)
      else
        if orderSize < ex.size then
          (some { ex with size := ex.size - orderSize },
           directionalDiff ex.side ex.avgPrice currentPrice * orderSize * multi)
        else if ex.size = orderSize then
          (none,
           directionalDiff ex.side ex.avgPrice currentPrice * orderSize * multi)
        else
          (some { symbol := symKey, side := side, avgPrice := currentPrice,
                  size := orderSize - ex.size, sl := none, tp := none, pnl := 0 },
           directionalDiff ex.side ex.avgPrice currentPrice * ex.size * multi)

/-- Claim C1's description of fill handling, written from its words:
open on no position; same side takes the weighted average; an opposite
fill smaller than the position realizes PnL on the fill size and
reduces; an equal fill realizes PnL on the whole size and deletes; a
larger fill realizes PnL on the existing size and flips into a new
position of the remainder at the fill price. -/
def applyFillC1Spec (symKey : String) (existing : Option Position) (side : Side)
    (price fillSize multiplier : ℚ) : Option Position × ℚ :=
  match existing with
  | none =>
      (some { symbol := symKey, side := side, avgPrice := price,
              size := fillSize, sl := none, tp := none, pnl := 0 }, 0)
  | some ex =>
      if ex.side = side then
        (some { ex with
                  avgPrice := (ex.avgPrice * ex.size + price * fillSize) / (ex.size + fillSize),
                  size := ex.size + fillSize }, 0)
      else if fillSize < ex.size then
        (some { ex with size := ex.size - fillSize },
         directionalDiff ex.side ex.avgPrice price * fillSize * multiplier)
      else if fillSize = ex.size then
        (none, directionalDiff ex.side ex.avgPrice price * ex.size * multiplier)
      else
        (some { symbol := symKey, side := side, avgPrice := price,
                size := fillSize - ex.size, sl := none, tp := none, pnl := 0 },
         directionalDiff ex.side ex.avgPrice price * ex.size * multiplier)

/-- The positions/balance state touched by orders and marks. -/
structure TradingState where
  posES : Option Position
  posNQ : Option Position
  accountBalance : ℚ
deriving DecidableEq

/-- The position entry of one instrument. -/
def getPos (st : TradingState) : Instr → Option Position
  | .es => st.posES
  | .nq => st.posNQ

/-- `handleOrder` (page.tsx lines 514-554): a no-op when the
instrument's `currentPrice` is still falsy (line 516), otherwise apply
the fill at `currentPrice` and credit the realized PnL. -/
def handleOrder (instr : Instr) (side : Side) (currentPrice orderSize multi : ℚ)
    (st : TradingState) : TradingState :=
  if currentPrice = 0 then st
  else
    let r := applyFill (instrKey instr) (getPos st instr) side currentPrice orderSize multi
    match instr with
    | .es => { st with posES := r.1, accountBalance := st.accountBalance + r.2 }
    | .nq => { st with posNQ := r.1, accountBalance := st.accountBalance + r.2 }

/-! ## Mark-to-market and stop evaluation: updatePnL (page.tsx lines 454-484) -/

/-- The stop-loss trigger test `pos.sl && ((pos.side === "LONG" &&
currentPrice <= pos.sl) || (pos.side === "SHORT" && currentPrice >=
pos.sl))` (page.tsx line 470); JS truthiness makes an `sl` of `0`
inert. -/
def slHit (side : Side) (sl : Option ℚ) (p : ℚ) : Bool :=
  match sl with
  | none => false
  | some s =>
      decide (¬ s = 0) &&
        (match side with
         | .LONG => decide (p ≤ s)
         | .SHORT => decide (s ≤ p))

/-- The take-profit trigger test (page.tsx line 475), analogous. -/
def tpHit (side : Side) (tp : Option ℚ) (p : ℚ) : Bool :=
  match tp with
  | none => false
  | some tpp =>
      decide (¬ tpp = 0) &&
        (match side with
         | .LONG => decide (tpp ≤ p)
         | .SHORT => decide (p ≤ tpp))

/-- One position's share of `updatePnL` (page.tsx lines 459-481): skip
when the current price is `0`; otherwise recompute `pnl`, then close
the position and realize `pnl` when the stop-loss, or else the
take-profit, triggers.  Returns the surviving position entry and the
balance delta. -/
def markPosition (pos : Position) (p multi : ℚ) : Option Position × ℚ :=
  if p = 0 then (some pos, 0)
  else
    let pnl2 := directionalDiff pos.side pos.avgPrice p * multi * pos.size
    if slHit pos.side pos.sl p then (none, pnl2)
    else if tpHit pos.side pos.tp p then (none, pnl2)
    else (some { pos with pnl := pnl2 }, 0)

/-- Claim C2's description of a mark-to-market, written from its words:
recompute `unrealizedPnl = directionalDiff(side, avgPrice, p) *
multiplier * size`, then close (realizing that amount) when a LONG sees
`p ≤ sl` or `p ≥ tp`, or a SHORT sees `p ≥ sl` or `p ≤ tp`. -/
def markToMarketC2Spec (pos : Position) (p multi : ℚ) : Option Position × ℚ :=
  let pnl2 := directionalDiff pos.side pos.avgPrice p * multi * pos.size
  let hitSL : Bool :=
    match pos.sl with
    | none => false
    | some s =>
        match pos.side with
        | .LONG => decide (p ≤ s)
        | .SHORT => decide (s ≤ p)
  let hitTP : Bool :=
    match pos.tp with
    | none => false
    | some tpp =>
        match pos.side with
        | .LONG => decide (tpp ≤ p)
        | .SHORT => decide (p ≤ tpp)
  if hitSL || hitTP then (none, pnl2)
  else (some { pos with pnl := pnl2 }, 0)

/-- Mark one position through a sequence of prices, accumulating the
realized balance. -/
def markSeq (pos : Option Position) (bal multi : ℚ) : List ℚ → Option Position × ℚ
  | [] => (pos, bal)
  | p :: rest =>
      match pos with
      | none => markSeq none bal multi rest
      | some q =>
          let r := markPosition q p multi
          markSeq r.1 (bal + r.2) multi rest

/-- The position of claim C2's example: LONG 1 @ 100 with SL 95. -/
def examplePositionC2 : Position :=
  { symbol := "ES", side := .LONG, avgPrice := 100, size := 1,
    sl := some 95, tp := none, pnl := 0 }

/-! ## Stop placement: handleChartClick (page.tsx lines 220-271) -/

/-- Which stop line a chart click edits (`editMode.type`). -/
inductive StopKind where
  | SL
  | TP
deriving DecidableEq

/-- The validation-and-set core of `handleChartClick` (page.tsx lines
226-268): a falsy clicked price returns silently; without a position
the click is ignored; a stop that would execute immediately against
`currentPrice` is rejected with an alert and the position (hence any
existing sl/tp) kept; otherwise the requested field is set.  The
returned `Bool` records whether the error alert was shown. -/
def setStop (pos : Option Position) (kind : StopKind) (price currentPrice : ℚ) :
    Option Position × Bool :=
  if price = 0 then (pos, false)
  else
    match pos with
    | none => (none, false)
    | some p =>
        let invalid : Bool :=
          match p.side, kind with
          | .LONG, .SL => decide (currentPrice ≤ price)
          | .LONG, .TP => decide (price ≤ currentPrice)
          | .SHORT, .SL => decide (price ≤ currentPrice)
          | .SHORT, .TP => decide (currentPrice ≤ price)
        if invalid then (some p, true)
        else
          match kind with
          | .SL => (some { p with sl := some price }, false)
          | .TP => (some { p with tp := some price }, false)

/-! ## Buffer refill: checkAndFetchMore (page.tsx lines 384-407) -/

/-- A page returned by `fetchTicks`. -/
structure FetchResp where
  ticks : List Tick
  nextCursor : String
  done : Bool
deriving DecidableEq

/-- One stream's buffer, pagination cursor and exhaustion flag. -/
structure BufferSt where
  buffer : List Tick
  cursor : String
  done : Bool
deriving DecidableEq

/-- Merging a fetched page into a stream (page.tsx lines 395-397 and
401-403): the page is concatenated onto the buffer unconditionally and
cursor/done are taken from the response. -/
def appendPage (st : BufferSt) (resp : FetchResp) : BufferSt :=
  { buffer := st.buffer ++ resp.ticks,
    cursor := resp.nextCursor,
    done := resp.done }

/-- The timestamp of the buffer's last tick (0 for an empty buffer);
used only to state ordering of appended pages. -/
def lastTs (l : List Tick) : ℤ :=
  match l.getLast? with
  | some tk => tk.ts
  | none => 0

/-- The per-stream numbers `checkAndFetchMore` reads: `buffer.length`,
`lastLoadedIndex` and `done` (page.tsx lines 387-388). -/
structure StreamMeta where
  bufferLen : ℕ
  lastLoadedIndex : ℤ
  done : Bool
deriving DecidableEq

/-- The refill test `!done && (buffer.length - lastLoadedIndex) <
THRESHOLD` with `THRESHOLD = 10000` (page.tsx lines 386-388). -/
def needsRefill (m : StreamMeta) : Bool :=
  !m.done && decide ((m.bufferLen : ℤ) - m.lastLoadedIndex < 10000)

/-- The state `checkAndFetchMore` consults: both streams and the single
global `loadingMore` flag (page.tsx line 129). -/
structure RefillState where
  es : StreamMeta
  nq : StreamMeta
  loadingMore : Bool
deriving DecidableEq

/-- The refill requests one call of `checkAndFetchMore` issues
(page.tsx lines 384-407): none while the global `loadingMore` flag is
set; otherwise one request per stream that needs a refill. -/
def refillRequests (st : RefillState) : List Instr :=
  if st.loadingMore then []
  else if !needsRefill st.es && !needsRefill st.nq then []
  else
    (if needsRefill st.es then [Instr.es] else []) ++
      (if needsRefill st.nq then [Instr.nq] else [])

/-! ## Concrete inputs used by witnesses and counterexamples -/

/-- Two in-order ticks, one per minute bucket. -/
def ticksExample : List Tick :=
  [⟨0, 10, 1, 570⟩, ⟨60000000000, 12, 1, 571⟩]

/-- An aggregator holding an open candle for the bucket starting at
second 60. -/
def aggAtMinuteOne : AggState :=
  { currentPrice := 5, candle := some ⟨60, 10, 11, 9, 10⟩, closed := [] }

/-- A tick 30 s into the day: its bucket (0) lies before
`aggAtMinuteOne`'s open bucket (60). -/
def earlierTick : Tick :=
  ⟨30000000000, 7, 1, 570⟩

/-- A one-tick buffer whose last timestamp is 10. -/
def bufferAt10 : BufferSt :=
  { buffer := [⟨10, 1, 1, 570⟩], cursor := "1", done := false }

/-- A fetched page whose tick timestamp 5 precedes the buffer's last
timestamp 10. -/
def outOfOrderPage : FetchResp :=
  { ticks := [⟨5, 2, 1, 570⟩], nextCursor := "2", done := false }

/-- A refill state in which a fetch is in flight (`loadingMore`), ES is
well stocked and NQ is low (pending 5001 < 10000) and not exhausted. -/
def busyRefillState : RefillState :=
  { es := { bufferLen := 20000, lastLoadedIndex := 0, done := false },
    nq := { bufferLen := 5000, lastLoadedIndex := -1, done := false },
    loadingMore := true }

/-- A refill state with no fetch in flight and both streams low. -/
def idleRefillState : RefillState :=
  { es := { bufferLen := 5000, lastLoadedIndex := -1, done := false },
    nq := { bufferLen := 5000, lastLoadedIndex := -1, done := false },
    loadingMore := false }

/-! ## Theorems -/

/-- Claim C1: for every fill, `applyFill` opens on no position, takes
the weighted average on a same-side fill, realizes
`directionalDiff * fillSize * multiplier` and reduces on a smaller
opposite fill (avgPrice unchanged), realizes on the whole size and
deletes on an equal opposite fill, and flips into a new position of
size `fillSize - existing.size` at the fill price on a larger opposite
fill — exactly the piecewise description `applyFillC1Spec`. -/
theorem applyFill_matches_spec (symKey : String) (existing : Option Position)
    (side : Side) (price fillSize multi : ℚ) :
    applyFill symKey existing side price fillSize multi =
      applyFillC1Spec symKey existing side price fillSize multi := by
  cases existing with
  | none => rfl
  | some ex =>
      by_cases hside : ex.side = side
      · simp [applyFill, applyFillC1Spec, hside]
      · rcases lt_trichotomy fillSize ex.size with h | h | h
        · simp [applyFill, applyFillC1Spec, hside, h, h.ne']
        · subst h
          simp [applyFill, applyFillC1Spec, hside]
        · simp [applyFill, applyFillC1Spec, hside, h.asymm, h.ne, h.ne']

/-- Claim C10: placing an order while the instrument's current price is
still `0` leaves the trading state (positions and balance) exactly
unchanged: `handleOrder` returns before touching anything. -/
theorem handleOrder_zero_price_noop (instr : Instr) (side : Side)
    (orderSize multi : ℚ) (st : TradingState) :
    handleOrder instr side 0 orderSize multi st = st := by
  simp [handleOrder]

/-- Collapsing two same-result branches: helper for the stop-trigger
disjunction. -/
theorem ite_ite_or {α : Type} (a b : Bool) (x y : α) :
    (if a then x else if b then x else y) = if (a || b) then x else y := by
  cases a <;> simp

/-- Claim C2: a mark-to-market at a positive price `p` on a position
whose attached stops are positive first recomputes
`unrealizedPnl = directionalDiff(side, avgPrice, p) * multiplier * size`
and then closes exactly when a LONG sees `p ≤ sl` or `p ≥ tp` or a
SHORT sees `p ≥ sl` or `p ≤ tp`, realizing that amount — i.e. it equals
`markToMarketC2Spec`; and the LONG 1 @ 100 with SL 95 example survives
the marks 99 and 96 and closes exactly at 94 realizing
`(94 - 100) * multiplier * 1`. -/
theorem markToMarket_matches_spec (pos : Position) (p multi : ℚ)
    (hp : 0 < p)
    (hsl : ∀ s ∈ pos.sl, 0 < s)
    (htp : ∀ t ∈ pos.tp, 0 < t) :
    markPosition pos p multi = markToMarketC2Spec pos p multi ∧
    markSeq (some examplePositionC2) 0 multi [99, 96] =
      (some { examplePositionC2 with pnl := (96 - 100) * multi * 1 }, 0) ∧
    markSeq (some examplePositionC2) 0 multi [99, 96, 94] =
      (none, (94 - 100) * multi * 1) := by
  refine ⟨?_, ?_, ?_⟩
  · cases hsd : pos.side <;> cases hs : pos.sl <;> cases ht : pos.tp <;>
      simp only [markPosition, markToMarketC2Spec, slHit, tpHit, hsd, hs, ht,
        if_neg hp.ne', ite_ite_or]
    case LONG.none.some t =>
      have ht0 : ¬ t = 0 := (htp t (by simp [ht])).ne'
      simp [ht0]
    case LONG.some.none s =>
      have hs0 : ¬ s = 0 := (hsl s (by simp [hs])).ne'
      simp [hs0]
    case LONG.some.some s t =>
      have hs0 : ¬ s = 0 := (hsl s (by simp [hs])).ne'
      have ht0 : ¬ t = 0 := (htp t (by simp [ht])).ne'
      simp [hs0, ht0]
    case SHORT.none.some t =>
      have ht0 : ¬ t = 0 := (htp t (by simp [ht])).ne'
      simp [ht0]
    case SHORT.some.none s =>
      have hs0 : ¬ s = 0 := (hsl s (by simp [hs])).ne'
      simp [hs0]
    case SHORT.some.some s t =>
      have hs0 : ¬ s = 0 := (hsl s (by simp [hs])).ne'
      have ht0 : ¬ t = 0 := (htp t (by simp [ht])).ne'
      simp [hs0, ht0]
  · norm_num [markSeq, markPosition, slHit, tpHit, examplePositionC2, directionalDiff]
  · norm_num [markSeq, markPosition, slHit, tpHit, examplePositionC2, directionalDiff]

/-- Witness for claim C2 at the concrete mark `p = 94` on the example
position. -/
theorem markToMarket_witness :
    (0 : ℚ) < 94 ∧
    markPosition examplePositionC2 94 50 = markToMarketC2Spec examplePositionC2 94 50 :=
  ⟨by norm_num,
   (markToMarket_matches_spec examplePositionC2 94 50 (by norm_num)
      (by norm_num [examplePositionC2])
      (by simp [examplePositionC2])).1⟩

/-- Consuming up to `t1` and then up to a later `t2` folds exactly the
ticks a single consumption up to `t2` folds, in the same order. -/
theorem consumeUpTo_split (t1 t2 : ℤ) (h : t1 ≤ t2) :
    ∀ (l : List Tick) (s : AggState),
      consumeUpTo t2 (consumeUpTo t1 l s).2 (consumeUpTo t1 l s).1 =
        consumeUpTo t2 l s := by
  intro l
  induction l with
  | nil => intro s; rfl
  | cons tk rest ih =>
      intro s
      by_cases htk : tk.ts ≤ t1
      · have htk2 : tk.ts ≤ t2 := le_trans htk h
        simp [consumeUpTo, htk, htk2, ih]
      · simp [consumeUpTo, htk]

/-- `processInstrumentTick` at a later clock absorbs an earlier one. -/
theorem processInstrumentTick_split (t1 t2 : ℤ) (h : t1 ≤ t2) (st : StreamSt) :
    processInstrumentTick t2 (processInstrumentTick t1 st) =
      processInstrumentTick t2 st := by
  simp [processInstrumentTick, consumeUpTo_split t1 t2 h]

/-- Counterexample to claim C3: the per-frame advance is
`BigInt(Math.floor(deltaMs * 1e6 * speed))`, and the floor is not
additive — advancing twice by `3/4000000` ms at speed 1 truncates two
advances of `3/4` ns to 0, while the single advance of `3/2000000` ms
yields `⌊3/2⌋ = 1` ns, so the final virtual clocks (and hence states)
differ. -/
theorem frame_split_counterexample :
    frame (3 / 4000000) 1 (frame (3 / 4000000) 1 engine0) ≠
      frame (3 / 4000000 + 3 / 4000000) 1 engine0 := by
  intro h
  have hclk := congrArg EngineState.globalTimeBig h
  simp [frame, advanceNs, engine0, processInstrumentTick, consumeUpTo, initAgg] at hclk
  norm_num at hclk

/-- Claim C3 as amended: advancing by a total wall-clock delta in one
frame or split into two frames agrees — identical final virtual clock
and candle state — provided the earlier frame's advance
`deltaMs * 1e6 * speed` is a whole number of nanoseconds (so the floor
truncates nothing), the later delta is nonnegative and the speed lies
in `[1, 500]`; in general the floor truncation breaks the identity. -/
theorem frame_split_integral (d1 d2 speed : ℚ) (e : EngineState)
    (hint : ∃ n : ℤ, d1 * 1000000 * speed = (n : ℚ))
    (hd2 : 0 ≤ d2) (hs1 : 1 ≤ speed) (_hs2 : speed ≤ 500) :
    frame d2 speed (frame d1 speed e) = frame (d1 + d2) speed e := by
  obtain ⟨n, hn⟩ := hint
  have hadd : advanceNs (d1 + d2) speed = advanceNs d1 speed + advanceNs d2 speed := by
    unfold advanceNs
    have hsum : (d1 + d2) * 1000000 * speed = (n : ℚ) + d2 * 1000000 * speed := by
      rw [← hn]; ring
    rw [hsum, Int.floor_int_add, hn, Int.floor_intCast]
  have ha2 : 0 ≤ advanceNs d2 speed := by
    unfold advanceNs
    have : (0 : ℚ) ≤ d2 * 1000000 * speed := by positivity
    exact_mod_cast Int.floor_nonneg.mpr this
  have hle : e.globalTimeBig + advanceNs d1 speed ≤
      e.globalTimeBig + advanceNs d1 speed + advanceNs d2 speed := by omega
  have harr : e.globalTimeBig + (advanceNs d1 speed + advanceNs d2 speed) =
      e.globalTimeBig + advanceNs d1 speed + advanceNs d2 speed := by ring
  simp only [frame, hadd, harr, EngineState.mk.injEq]
  exact ⟨trivial,
    processInstrumentTick_split _ _ hle e.es,
    processInstrumentTick_split _ _ hle e.nq⟩

/-- Witness for the amended claim C3: splitting a 2 µs wall-clock delta
into two 1 µs frames at speed 1 (each advance exactly 1 ns) reaches the
same state as one frame. -/
theorem frame_split_witness :
    (∃ n : ℤ, (1 / 1000000 : ℚ) * 1000000 * 1 = (n : ℚ)) ∧
    (0 : ℚ) ≤ 1 / 1000000 ∧ (1 : ℚ) ≤ 1 ∧ (1 : ℚ) ≤ 500 ∧
    frame (1 / 1000000) 1 (frame (1 / 1000000) 1 engine0) =
      frame (1 / 1000000 + 1 / 1000000) 1 engine0 :=
  ⟨⟨1, by norm_num⟩, by norm_num, le_refl 1, by norm_num,
   frame_split_integral (1 / 1000000) (1 / 1000000) 1 engine0
     ⟨1, by norm_num⟩ (by norm_num) (le_refl 1) (by norm_num)⟩

/-- Closed form of one `processSync` scan: it folds exactly the ticks
before the first tick at/after the target, stops there, and updates the
shared flag and clock from that first tick only when the flag was still
down. -/
theorem processSyncOne_eq (target : ℤ) :
    ∀ (l : List Tick) (s : AggState) (cu : Bool) (ck : ℤ),
      processSyncOne target l s cu ck =
        ⟨foldAll s (l.takeWhile (beforeTarget target)),
         l.dropWhile (beforeTarget target),
         cu || (l.find? (atOrAfter target)).isSome,
         match l.find? (atOrAfter target) with
         | some tk => if cu then ck else tk.ts
         | none => ck⟩ := by
  intro l
  induction l with
  | nil => intro s cu ck; simp [processSyncOne, foldAll]
  | cons tk rest ih =>
      intro s cu ck
      by_cases htk : target ≤ tk.m
      · have hb : beforeTarget target tk = false := by
          simp [beforeTarget, htk, not_lt.mpr htk]
        have ha : atOrAfter target tk = true := by simp [atOrAfter, htk]
        simp [processSyncOne, htk, hb, ha, List.takeWhile_cons, List.dropWhile_cons,
          List.find?_cons, foldAll]
      · have hb : beforeTarget target tk = true := by
          simp [beforeTarget, lt_of_not_ge htk]
        have ha : atOrAfter target tk = false := by simp [atOrAfter, htk]
        simp only [processSyncOne, if_neg htk, List.takeWhile_cons, List.dropWhile_cons,
          List.find?_cons, hb, ha, ih]
        simp [foldAll]

/-- Counterexample to claim C4: seek to minute 600 where ES's first
tick at/after the target has timestamp 1000 and NQ's has timestamp 900.
The earliest such timestamp across instruments is 900, but the shared
`caughtUp` flag is raised while scanning ES first, so the virtual clock
becomes 1000, not 900. -/
theorem seekSync_counterexample :
    (seekSync 600 100 [⟨1000, 5, 1, 600⟩] [⟨900, 6, 1, 600⟩] initAgg initAgg).clock
        = 1000 ∧
    ¬ (seekSync 600 100 [⟨1000, 5, 1, 600⟩] [⟨900, 6, 1, 600⟩] initAgg initAgg).clock
        = 900 := by
  constructor
  · simp [seekSync, processSyncOne]
  · simp [seekSync, processSyncOne]

/-- Claim C4 as amended: after the seek, each stream has folded exactly
its pending prefix of ticks before the first tick at/after the target
minute (all ticks with `m <` target when the buffer's minutes are
non-decreasing), and the virtual clock equals the timestamp of the
*ES* stream's first tick at/after the target if ES has one, else the
NQ stream's, and otherwise — when no instrument has a tick at/after the
target — it keeps the session-start value, with no error raised.  It is
not the earliest such timestamp across instruments. -/
theorem seekSync_spec (target startClock : ℤ) (esP nqP : List Tick)
    (esA nqA : AggState) :
    (seekSync target startClock esP nqP esA nqA).clock =
      (match esP.find? (atOrAfter target), nqP.find? (atOrAfter target) with
       | some tk, _ => tk.ts
       | none, some tk => tk.ts
       | none, none => startClock) ∧
    (seekSync target startClock esP nqP esA nqA).es.agg =
      foldAll esA (esP.takeWhile (beforeTarget target)) ∧
    (seekSync target startClock esP nqP esA nqA).es.pending =
      esP.dropWhile (beforeTarget target) ∧
    (seekSync target startClock esP nqP esA nqA).nq.agg =
      foldAll nqA (nqP.takeWhile (beforeTarget target)) ∧
    (seekSync target startClock esP nqP esA nqA).nq.pending =
      nqP.dropWhile (beforeTarget target) := by
  simp only [seekSync, processSyncOne_eq]
  rcases h1 : esP.find? (atOrAfter target) with _ | tk1 <;>
    rcases h2 : nqP.find? (atOrAfter target) with _ | tk2 <;>
      simp [h1, h2]

/-- Folding a cons. -/
theorem foldAll_cons (s : AggState) (tk : Tick) (rest : List Tick) :
    foldAll s (tk :: rest) = foldAll (foldTick s tk) rest := rfl

/-- The minute bucket is monotone on nonnegative timestamps. -/
theorem bucket_mono {a b : ℤ} (ha : 0 ≤ a) (hab : a ≤ b) :
    bucket a ≤ bucket b := by
  have hb : 0 ≤ b := le_trans ha hab
  have e1 : a.tdiv 1000000000 = a / 1000000000 := Int.tdiv_eq_ediv ha (by norm_num)
  have e2 : b.tdiv 1000000000 = b / 1000000000 := Int.tdiv_eq_ediv hb (by norm_num)
  unfold bucket
  rw [e1, e2, Int.fdiv_eq_ediv _ (by norm_num), Int.fdiv_eq_ediv _ (by norm_num)]
  have h1 : a / 1000000000 ≤ b / 1000000000 := Int.ediv_le_ediv (by norm_num) hab
  have h2 : a / 1000000000 / 60 ≤ b / 1000000000 / 60 :=
    Int.ediv_le_ediv (by norm_num) h1
  exact mul_le_mul_of_nonneg_right h2 (by norm_num)

/-- After folding a tick there is always an open candle, and its bucket
is the tick's. -/
theorem foldTick_candle_time (s : AggState) (tk : Tick) :
    ∃ c', (foldTick s tk).candle = some c' ∧ c'.time = bucket tk.ts := by
  have h : ((foldTick s tk).candle).map Candle.time = some (bucket tk.ts) := by
    rcases hcand : s.candle with _ | c0
    · simp [foldTick, hcand]
    · by_cases hb : c0.time = bucket tk.ts <;> simp [foldTick, hcand, hb]
  rcases hc : (foldTick s tk).candle with _ | c'
  · rw [hc] at h; simp at h
  · rw [hc] at h
    simp only [Option.map_some'] at h
    exact ⟨c', rfl, by injection h⟩

/-- Folding one tick preserves OHLC sanity of every candle. -/
theorem foldTick_candleOk {s : AggState} (tk : Tick)
    (h : ∀ c ∈ candles s, candleOk c) :
    ∀ c ∈ candles (foldTick s tk), candleOk c := by
  intro c hc
  rcases hcand : s.candle with _ | c0
  · simp [foldTick, hcand, candles] at hc
    rcases hc with hc | hc
    · exact h c (by simp [candles, hc])
    · subst hc; exact ⟨le_refl _, le_refl _, le_refl _, le_refl _⟩
  · by_cases hne : c0.time = bucket tk.ts
    · simp [foldTick, hcand, hne, candles] at hc
      rcases hc with hc | hc
      · exact h c (by simp [candles, hc])
      · have h0 : candleOk c0 := h c0 (by simp [candles, hcand])
        subst hc
        exact ⟨le_trans (min_le_left _ _) h0.1, min_le_right _ _,
          le_trans h0.2.2.1 (le_max_left _ _), le_max_right _ _⟩
    · simp [foldTick, hcand, hne, candles] at hc
      rcases hc with hc | hc | hc
      · exact h c (by simp [candles, hc])
      · subst hc; exact h _ (by simp [candles, hcand])
      · subst hc; exact ⟨le_refl _, le_refl _, le_refl _, le_refl _⟩

/-- Folding any tick list preserves OHLC sanity of every candle. -/
theorem foldAll_candleOk : ∀ (l : List Tick) (s : AggState),
    (∀ c ∈ candles s, candleOk c) → ∀ c ∈ candles (foldAll s l), candleOk c := by
  intro l
  induction l with
  | nil => intro s h; simpa [foldAll] using h
  | cons tk rest ih =>
      intro s h
      rw [foldAll_cons]
      exact ih (foldTick s tk) (foldTick_candleOk tk h)

/-- Every candle bucket after folding one tick is an old bucket or the
tick's bucket. -/
theorem foldTick_times (s : AggState) (tk : Tick) :
    ∀ t ∈ candleTimes (foldTick s tk), t ∈ candleTimes s ∨ t = bucket tk.ts := by
  intro t ht
  rcases hcand : s.candle with _ | c0
  · have heq : candleTimes (foldTick s tk) =
        s.closed.map Candle.time ++ [bucket tk.ts] := by
      simp [foldTick, hcand, candleTimes, candles]
    have heq0 : candleTimes s = s.closed.map Candle.time := by
      simp [candleTimes, candles, hcand]
    rw [heq] at ht
    rcases List.mem_append.mp ht with h | h
    · exact Or.inl (by rw [heq0]; exact h)
    · exact Or.inr (by simpa using h)
  · by_cases hb : c0.time = bucket tk.ts
    · have heq : candleTimes (foldTick s tk) = candleTimes s := by
        simp [foldTick, hcand, hb, candleTimes, candles]
      rw [heq] at ht
      exact Or.inl ht
    · have heq : candleTimes (foldTick s tk) = candleTimes s ++ [bucket tk.ts] := by
        simp [foldTick, hcand, hb, candleTimes, candles]
      rw [heq] at ht
      rcases List.mem_append.mp ht with h | h
      · exact Or.inl h
      · exact Or.inr (by simpa using h)

/-- Every candle bucket originates from a folded tick or from the
starting state. -/
theorem foldAll_origin : ∀ (l : List Tick) (s : AggState) (c : Candle),
    c ∈ candles (foldAll s l) →
      c.time ∈ candleTimes s ∨ ∃ tk ∈ l, c.time = bucket tk.ts := by
  intro l
  induction l with
  | nil =>
      intro s c hc
      exact Or.inl (List.mem_map_of_mem Candle.time hc)
  | cons tk rest ih =>
      intro s c hc
      rw [foldAll_cons] at hc
      rcases ih (foldTick s tk) c hc with h | ⟨tk', htk', he⟩
      · rcases foldTick_times s tk c.time h with h' | h'
        · exact Or.inl h'
        · exact Or.inr ⟨tk, List.mem_cons_self _ _, h'⟩
      · exact Or.inr ⟨tk', List.mem_cons_of_mem _ htk', he⟩

/-- Candle buckets stay pairwise non-decreasing while folding a sorted,
nonnegative-timestamp tick list, given the running invariants: the
bucket list so far is sorted, a state with no open candle has no closed
candles, and the open candle's bucket is at most every remaining tick's
bucket. -/
theorem foldAll_timesPairwise :
    ∀ (l : List Tick) (s : AggState),
      l.Pairwise (fun a b => a.ts ≤ b.ts) →
      (∀ tk ∈ l, 0 ≤ tk.ts) →
      (candleTimes s).Pairwise (· ≤ ·) →
      (s.candle = none → s.closed = []) →
      (∀ c0, s.candle = some c0 → ∀ tk ∈ l, c0.time ≤ bucket tk.ts) →
      (candleTimes (foldAll s l)).Pairwise (· ≤ ·) := by
  intro l
  induction l with
  | nil => intro s _ _ hp _ _; simpa [foldAll] using hp
  | cons tk rest ih =>
      intro s hsort hnn hp hnone hrel
      have hhead : ∀ tk' ∈ rest, tk.ts ≤ tk'.ts := (List.pairwise_cons.mp hsort).1
      have hnn0 : 0 ≤ tk.ts := hnn tk (List.mem_cons_self _ _)
      rw [foldAll_cons]
      refine ih (foldTick s tk) (List.Pairwise.of_cons hsort)
        (fun tk' h => hnn tk' (List.mem_cons_of_mem _ h)) ?_ ?_ ?_
      · -- bucket list of the new state stays sorted
        rcases hcand : s.candle with _ | c0
        · have hcl : s.closed = [] := hnone hcand
          simp [foldTick, hcand, candleTimes, candles, hcl]
        · by_cases hne : c0.time = bucket tk.ts
          · have heq : candleTimes (foldTick s tk) = candleTimes s := by
              simp [foldTick, hcand, hne, candleTimes, candles]
            rw [heq]; exact hp
          · have hle0 : c0.time ≤ bucket tk.ts :=
              hrel c0 hcand tk (List.mem_cons_self _ _)
            have heq : candleTimes (foldTick s tk) = candleTimes s ++ [bucket tk.ts] := by
              simp [foldTick, hcand, hne, candleTimes, candles]
            have hsplit : candleTimes s = s.closed.map Candle.time ++ [c0.time] := by
              simp [candleTimes, candles, hcand]
            rw [heq, List.pairwise_append]
            refine ⟨hp, List.pairwise_singleton _ _, ?_⟩
            intro a ha b hb
            simp only [List.mem_singleton] at hb
            subst hb
            rw [hsplit] at ha
            rcases List.mem_append.mp ha with ha | ha
            · rw [hsplit, List.pairwise_append] at hp
              exact le_trans (hp.2.2 a ha c0.time (List.mem_singleton_self _)) hle0
            · simp only [List.mem_singleton] at ha
              subst ha; exact hle0
      · -- the new state always has an open candle
        intro h
        obtain ⟨c', hc', _⟩ := foldTick_candle_time s tk
        rw [hc'] at h
        cases h
      · -- the new open bucket is at most every remaining tick's bucket
        intro c0 hc0 tk' htk'
        obtain ⟨c', hc', htime⟩ := foldTick_candle_time s tk
        rw [hc'] at hc0
        cases hc0
        rw [htime]
        exact bucket_mono hnn0 (hhead tk' htk')

/-- Claim C5: folding any tick list sorted by timestamp (nonnegative
epoch-nanosecond stamps) through the aggregator yields candles that all
satisfy `low ≤ min(open, close)` and `high ≥ max(open, close)`, whose
open-time buckets are non-decreasing in production order, and each of
whose buckets is the floor-to-minute of some folded tick (no candle for
a minute with zero ticks). -/
theorem aggregator_invariants (l : List Tick)
    (hsort : l.Pairwise (fun a b => a.ts ≤ b.ts))
    (hnn : ∀ tk ∈ l, 0 ≤ tk.ts) :
    (∀ c ∈ candles (foldAll initAgg l), candleOk c) ∧
    ((candles (foldAll initAgg l)).map Candle.time).Chain' (· ≤ ·) ∧
    (∀ c ∈ candles (foldAll initAgg l), ∃ tk ∈ l, c.time = bucket tk.ts) := by
  refine ⟨foldAll_candleOk l initAgg (by simp [candles, initAgg]), ?_, ?_⟩
  · have hpw := foldAll_timesPairwise l initAgg hsort hnn
      (by simp [candleTimes, candles, initAgg]) (fun _ => rfl)
      (by intro c0 h _ _; simp [initAgg] at h)
    exact hpw.chain'
  · intro c hc
    rcases foldAll_origin l initAgg c hc with h | h
    · simp [candleTimes, candles, initAgg] at h
    · exact h

/-- Witness for claim C5 on a concrete two-tick, two-bucket list. -/
theorem aggregator_invariants_witness :
    ticksExample.Pairwise (fun a b => a.ts ≤ b.ts) ∧
    (∀ tk ∈ ticksExample, 0 ≤ tk.ts) ∧
    ((∀ c ∈ candles (foldAll initAgg ticksExample), candleOk c) ∧
     ((candles (foldAll initAgg ticksExample)).map Candle.time).Chain' (· ≤ ·) ∧
     (∀ c ∈ candles (foldAll initAgg ticksExample), ∃ tk ∈ ticksExample,
        c.time = bucket tk.ts)) := by
  have h1 : ticksExample.Pairwise (fun a b => a.ts ≤ b.ts) := by
    simp [ticksExample]
  have h2 : ∀ tk ∈ ticksExample, 0 ≤ tk.ts := by
    intro tk htk
    simp only [ticksExample, List.mem_cons, List.mem_singleton] at htk
    rcases htk with h | h | h <;> first | subst h; decide | cases h
  exact ⟨h1, h2, aggregator_invariants ticksExample h1 h2⟩

/-- Counterexample to claim C6: folding a tick whose bucket (0) lies
before the open candle's bucket (60) does not fold the price into the
open candle's high/low/close — it replaces the open candle with a fresh
candle at the earlier bucket. -/
theorem foldTick_earlier_counterexample :
    (foldTick aggAtMinuteOne earlierTick).candle = some ⟨0, 7, 7, 7, 7⟩ ∧
    (foldTick aggAtMinuteOne earlierTick).candle ≠ some ⟨60, 10, 11, 7, 7⟩ := by
  have hb : bucket 30000000000 = 0 := by decide
  constructor
  · simp [foldTick, aggAtMinuteOne, earlierTick, hb]
  · simp [foldTick, aggAtMinuteOne, earlierTick, hb]

/-- Claim C6 as amended: a tick whose minute bucket lies before the
currently open candle's bucket is not merged into the open candle;
`foldTick` supersedes the open candle (leaving it and all previously
closed candles unmodified in `closed`) and opens a fresh candle at the
tick's earlier bucket with open = high = low = close = price. -/
theorem foldTick_earlier_bucket (s : AggState) (tk : Tick) (c : Candle)
    (hc : s.candle = some c) (hlt : bucket tk.ts < c.time) :
    foldTick s tk =
      { currentPrice := tk.price,
        candle := some ⟨bucket tk.ts, tk.price, tk.price, tk.price, tk.price⟩,
        closed := s.closed ++ [c] } := by
  have hne : c.time ≠ bucket tk.ts := ne_of_gt hlt
  simp [foldTick, hc, hne]

/-- Witness for the amended claim C6 at the concrete earlier-bucket
tick. -/
theorem foldTick_earlier_bucket_witness :
    aggAtMinuteOne.candle = some ⟨60, 10, 11, 9, 10⟩ ∧
    bucket earlierTick.ts < (60 : ℤ) ∧
    foldTick aggAtMinuteOne earlierTick =
      { currentPrice := earlierTick.price,
        candle := some ⟨bucket earlierTick.ts, earlierTick.price,
          earlierTick.price, earlierTick.price, earlierTick.price⟩,
        closed := aggAtMinuteOne.closed ++ [⟨60, 10, 11, 9, 10⟩] } :=
  ⟨rfl, by decide,
   foldTick_earlier_bucket aggAtMinuteOne earlierTick ⟨60, 10, 11, 9, 10⟩ rfl (by decide)⟩

/-- Claim C7: a stop-loss or take-profit request that would execute
immediately against the current mark price — for a LONG an SL not
strictly below or a TP not strictly above the current price, reversed
for a SHORT — is rejected with the error alert, and the position
(including any existing sl/tp) is returned unchanged. -/
theorem setStop_rejects_invalid (pos : Position) (kind : StopKind)
    (price currentPrice : ℚ) (hp : 0 < price)
    (hbad : (pos.side = Side.LONG ∧ kind = StopKind.SL ∧ currentPrice ≤ price)
          ∨ (pos.side = Side.LONG ∧ kind = StopKind.TP ∧ price ≤ currentPrice)
          ∨ (pos.side = Side.SHORT ∧ kind = StopKind.SL ∧ price ≤ currentPrice)
          ∨ (pos.side = Side.SHORT ∧ kind = StopKind.TP ∧ currentPrice ≤ price)) :
    setStop (some pos) kind price currentPrice = (some pos, true) := by
  rcases hbad with ⟨h1, h2, h3⟩ | ⟨h1, h2, h3⟩ | ⟨h1, h2, h3⟩ | ⟨h1, h2, h3⟩ <;>
    subst h2 <;> simp [setStop, hp.ne', h1, h3]

/-- Witness for claim C7: the spec's example, a LONG at current price
100 with `setStopLoss(101)`; the existing SL 95 is untouched. -/
theorem setStop_rejects_invalid_witness :
    (0 : ℚ) < 101 ∧
    (examplePositionC2.side = Side.LONG ∧ (100 : ℚ) ≤ 101) ∧
    setStop (some examplePositionC2) StopKind.SL 101 100 =
      (some examplePositionC2, true) :=
  ⟨by norm_num, ⟨rfl, by norm_num⟩,
   setStop_rejects_invalid examplePositionC2 StopKind.SL 101 100 (by norm_num)
     (Or.inl ⟨rfl, rfl, by norm_num⟩)⟩

/-- Counterexample to claim C8: a page whose tick timestamp 5 precedes
the buffer's last timestamp 10 is not rejected — the buffer is extended
with the out-of-order page, and no failure occurs (the code performs no
ordering check at all). -/
theorem appendPage_counterexample :
    (∃ tk ∈ outOfOrderPage.ticks, tk.ts < lastTs bufferAt10.buffer) ∧
    (appendPage bufferAt10 outOfOrderPage).buffer ≠ bufferAt10.buffer ∧
    (appendPage bufferAt10 outOfOrderPage).buffer =
      bufferAt10.buffer ++ outOfOrderPage.ticks := by
  refine ⟨⟨⟨5, 2, 1, 570⟩, by simp [outOfOrderPage], by decide⟩, ?_, rfl⟩
  intro h
  have hlen := congrArg List.length h
  simp [appendPage, bufferAt10, outOfOrderPage] at hlen

/-- Claim C8 as amended: appending a fetched page never fails and
performs no ordering validation — even a page containing a tick older
than the buffer's last timestamp is concatenated wholesale, and the
cursor and done flag are taken from the response. -/
theorem appendPage_no_validation (st : BufferSt) (resp : FetchResp)
    (_hviol : ∃ tk ∈ resp.ticks, tk.ts < lastTs st.buffer) :
    appendPage st resp =
      { buffer := st.buffer ++ resp.ticks,
        cursor := resp.nextCursor, done := resp.done } := rfl

/-- Witness for the amended claim C8 on the concrete out-of-order
page. -/
theorem appendPage_no_validation_witness :
    (∃ tk ∈ outOfOrderPage.ticks, tk.ts < lastTs bufferAt10.buffer) ∧
    appendPage bufferAt10 outOfOrderPage =
      { buffer := bufferAt10.buffer ++ outOfOrderPage.ticks,
        cursor := outOfOrderPage.nextCursor, done := outOfOrderPage.done } :=
  ⟨⟨⟨5, 2, 1, 570⟩, by simp [outOfOrderPage], by decide⟩,
   appendPage_no_validation bufferAt10 outOfOrderPage
     ⟨⟨5, 2, 1, 570⟩, by simp [outOfOrderPage], by decide⟩⟩

/-- Counterexample to claim C9: while a refill for any stream is in
flight, the single global `loadingMore` flag makes `checkAndFetchMore`
return immediately, so the NQ stream — not exhausted and with pending
count 5001 below the threshold — gets no refill request, contradicting
the claimed per-stream flag that would not suppress the other stream's
refill. -/
theorem refill_counterexample :
    needsRefill busyRefillState.nq = true ∧
    busyRefillState.nq.done = false ∧
    refillRequests busyRefillState = [] := by
  refine ⟨by decide, rfl, by decide⟩

/-- Claim C9 as amended: the in-flight flag is one global flag, not a
per-stream flag; while it is set no refill is requested for either
stream, and when it is clear one call issues exactly one request per
stream that is not done and has `buffer.length - lastLoadedIndex` below
the threshold 10000. -/
theorem refillRequests_when_idle (st : RefillState) (h : st.loadingMore = false) :
    refillRequests st =
      (if needsRefill st.es then [Instr.es] else []) ++
        (if needsRefill st.nq then [Instr.nq] else []) := by
  cases hE : needsRefill st.es <;> cases hN : needsRefill st.nq <;>
    simp [refillRequests, h, hE, hN]

/-- Witness for the amended claim C9 at a state with no fetch in flight
and both streams low. -/
theorem refillRequests_when_idle_witness :
    idleRefillState.loadingMore = false ∧
    refillRequests idleRefillState =
      (if needsRefill idleRefillState.es then [Instr.es] else []) ++
        (if needsRefill idleRefillState.nq then [Instr.nq] else []) :=
  ⟨rfl, refillRequests_when_idle idleRefillState rfl⟩

end GhostTrader
